import Mathlib

/-!
Verification of the logic-tree engine in openquake/commonlib/logictree.py.

Weights are embedded as rationals; identifiers and uncertainty values as
strings.  Fallible operations return Except.  The shallow embedding follows
the Python source; definitions carry the source names wherever Lean allows.
-/

/-- Modelled from the spec: the numeric tolerance constant pmf.PRECISION used
for weight-sum checks (the hazardlib pmf module is outside src/); the spec
states the tolerance 1e-12. -/
def PRECISION : ℚ := 1 / 1000000000000

mutual

/-- BranchSet (logictree.py line 198): an uncertainty type together with the
ordered list of owned branches. -/
inductive BranchSet : Type where
  | mk (uncertainty_type : String) (branches : List Branch)

/-- Branch (logictree.py line 160): fields bs_id, branch_id, weight, value and
the optional child branchset bset (None for a leaf). -/
inductive Branch : Type where
  | mk (bs_id : String) (branch_id : String) (weight : ℚ) (value : String)
      (bset : Option BranchSet)

end

def BranchSet.uncertainty_type : BranchSet → String
  | .mk u _ => u

def BranchSet.branches : BranchSet → List Branch
  | .mk _ bs => bs

def Branch.bs_id : Branch → String
  | .mk s _ _ _ _ => s

def Branch.branch_id : Branch → String
  | .mk _ i _ _ _ => i

def Branch.weight : Branch → ℚ
  | .mk _ _ w _ _ => w

def Branch.value : Branch → String
  | .mk _ _ _ v _ => v

def Branch.bsetOf : Branch → Option BranchSet
  | .mk _ _ _ _ o => o

/-- PyPath embeds the nested two-item lists [prefix_path, branch] produced by
BranchSet._enumerate_paths (logictree.py line 286): nil is the empty prefix,
snoc wraps a prefix list and one more branch. -/
inductive PyPath : Type where
  | nil : PyPath
  | snoc (pre : PyPath) (b : Branch) : PyPath

mutual

/-- Embedding of BranchSet._enumerate_paths (logictree.py lines 286-297),
iterating over the branches of one branchset: for each branch it extends the
prefix path; a branch with a child branchset recurses into it, a leaf branch
yields the extended path. -/
def enumPathsList : List Branch → PyPath → List PyPath
  | [], _ => []
  | b :: rest, pre => enumPathsBranch b pre ++ enumPathsList rest pre

/-- Embedding of the body of BranchSet._enumerate_paths for a single branch. -/
def enumPathsBranch : Branch → PyPath → List PyPath
  | .mk s i w v none, pre => [.snoc pre (.mk s i w v none)]
  | .mk s i w v (some (.mk u brs)), pre =>
      enumPathsList brs (.snoc pre (.mk s i w v (some (.mk u brs))))

end

/-- Weight accumulation of the while loop in BranchSet.enumerate_paths
(logictree.py lines 280-283): weight starts at 1.0 and is multiplied by each
branch weight while unwinding the nested path. -/
def pathWeight : PyPath → ℚ
  | .nil => 1
  | .snoc p b => pathWeight p * b.weight

/-- Flattening of the while loop in BranchSet.enumerate_paths: branches are
collected leaf-to-root and reversed, which yields them in root-to-leaf
order. -/
def pathFlat : PyPath → List Branch
  | .nil => []
  | .snoc p b => pathFlat p ++ [b]

/-- Embedding of BranchSet.enumerate_paths (logictree.py lines 267-284): every
nested path produced by _enumerate_paths is turned into the pair of its
accumulated weight and its flattened root-to-leaf branch list. -/
def BranchSet.enumerate_paths (bs : BranchSet) : List (ℚ × List Branch) :=
  (enumPathsList bs.branches .nil).map fun p => (pathWeight p, pathFlat p)

mutual

/-- Claim-side characterisation (from the spec wording): the root-to-leaf paths
of a list of branches, in depth-first left-to-right order. -/
def dfsLeafPathsList : List Branch → List (List Branch)
  | [] => []
  | b :: rest => dfsLeafPathsBranch b ++ dfsLeafPathsList rest

/-- Claim-side characterisation: the root-to-leaf paths through one branch. -/
def dfsLeafPathsBranch : Branch → List (List Branch)
  | .mk s i w v none => [[.mk s i w v none]]
  | .mk s i w v (some (.mk u brs)) =>
      (dfsLeafPathsList brs).map (Branch.mk s i w v (some (.mk u brs)) :: ·)

end

/-- Claim-side DFS leaf paths of a branchset. -/
def BranchSet.dfsLeafPaths (bs : BranchSet) : List (List Branch) :=
  dfsLeafPathsList bs.branches

/-- Claim-side weight of a path: the product of the branch weights along it. -/
def pathWeightProd (l : List Branch) : ℚ :=
  (l.map Branch.weight).prod

mutual

/-- Invariant of the claims: each branchset reachable from the given branches
has branch weights summing exactly to 1. -/
def wwList : List Branch → Bool
  | [] => true
  | b :: rest => wwBranch b && wwList rest

/-- Invariant of the claims, restricted to the subtree below one branch. -/
def wwBranch : Branch → Bool
  | .mk _ _ _ _ none => true
  | .mk _ _ _ _ (some (.mk _ brs)) =>
      decide ((brs.map Branch.weight).sum = 1) && wwList brs

end

/-- Invariant of the claims for a whole tree rooted at a branchset. -/
def BranchSet.wellWeighted : BranchSet → Bool
  | .mk _ brs => decide ((brs.map Branch.weight).sum = 1) && wwList brs

/-- Realization (logictree.py lines 77-88): value, weight, ordinal (None when
sampling), lt_path and samples. -/
structure Realization where
  value : String
  weight : ℚ
  ordinal : Option ℕ
  lt_path : List String
  samples : ℕ
deriving DecidableEq

/-- Value of the first branch of a path, smlt_path[0].value in
SourceModelLogicTree.__iter__ (logictree.py lines 610 and 616). -/
def headValue : List Branch → String
  | [] => ""
  | b :: _ => b.value

/-- Modelled from the spec: one step of the seeded pseudo-random generator
behind numpy.random (numpy is outside src/); a linear congruential generator
standing in for the Mersenne twister. The state is a natural number below
2^31. -/
def lcgNext (st : ℕ) : ℕ :=
  (1103515245 * st + 12345) % 2147483648

/-- Modelled from the spec: numpy.random.seed resets the global generator
state to a function of the seed alone. -/
def npSeed (seed : ℕ) : ℕ :=
  lcgNext seed

/-- Modelled from the spec: inverse-transform selection of an index given
cumulative weights, as done by numpy.random.choice with probabilities p. -/
def pickIdx : List ℚ → ℚ → ℕ
  | [], _ => 0
  | w :: rest, u => if u < w then 0 else 1 + pickIdx rest (u - w)

/-- Modelled from the spec: numpy.random.choice(len(weights), n, p=weights)
drawing n indices with replacement from the seeded generator state, returning
the drawn indices in draw order together with the final state. -/
def npChoice (ws : List ℚ) : ℕ → ℕ → List ℕ × ℕ
  | 0, st => ([], st)
  | n + 1, st =>
      let st1 := lcgNext st
      let u : ℚ := st1 / 2147483648
      let i := pickIdx ws u
      let (idxs, st2) := npChoice ws n st1
      (i :: idxs, st2)

/-- ImtWeight (logictree.py lines 891-952): a composite weight stored as the
association list of its dictionary dic (intensity-measure-type name, or the
default key "weight", mapped to a rational weight). -/
structure ImtWeight where
  dic : List (String × ℚ)
deriving DecidableEq

/-- ImtWeight.__getitem__ (logictree.py lines 945-949): look the key up in dic
and fall back to the default component "weight" on a missing key.  (In the
source a missing "weight" key raises KeyError; constructed ImtWeights always
carry it, and the embedding returns 0 in that unreachable case.) -/
def ImtWeight.get (x : ImtWeight) (k : String) : ℚ :=
  match x.dic.lookup k with
  | some v => v
  | none => (x.dic.lookup "weight").getD 0

/-- ImtWeight.__add__ with an ImtWeight argument (logictree.py lines 921-924):
the keys come from the left operand only; missing keys of the right operand
fall back through __getitem__. -/
def ImtWeight.add (x y : ImtWeight) : ImtWeight :=
  ⟨x.dic.map fun kv => (kv.1, kv.2 + y.get kv.1)⟩

/-- ImtWeight.__add__ with a float argument (logictree.py lines 925-926). -/
def ImtWeight.addFloat (x : ImtWeight) (c : ℚ) : ImtWeight :=
  ⟨x.dic.map fun kv => (kv.1, kv.2 + c)⟩

/-- ImtWeight.__mul__ with an ImtWeight argument (logictree.py lines 910-914):
the keys are the union of both key sets, each component the product of the two
__getitem__ lookups. -/
def ImtWeight.mul (x y : ImtWeight) : ImtWeight :=
  ⟨((x.dic.map Prod.fst) ++ (y.dic.map Prod.fst)).dedup.map
      fun k => (k, x.get k * y.get k)⟩

/-- ImtWeight.__mul__ with a float argument (logictree.py lines 915-916). -/
def ImtWeight.mulFloat (x : ImtWeight) (c : ℚ) : ImtWeight :=
  ⟨x.dic.map fun kv => (kv.1, kv.2 * c)⟩

/-- ImtWeight.is_one (logictree.py lines 939-943): all inner weights are 1 up
to the precision, where falsy (zero) components are skipped by the
comprehension filter "if v". -/
def ImtWeight.is_one (x : ImtWeight) : Bool :=
  x.dic.all fun kv => decide (kv.2 = 0 ∨ |kv.2 - 1| < PRECISION)

/-- Python sum() over a list of ImtWeights, as used on the branch weights of a
gsim branchset (logictree.py line 1202): the start value 0 is absorbed by
__radd__ on the first element, later elements are added with __add__, so the
key set is that of the first weight. -/
def sumWeights : List ImtWeight → ImtWeight
  | [] => ⟨[]⟩
  | w :: rest => rest.foldl ImtWeight.add (w.addFloat 0)

/-- Weight attribute of a sampled object, which in the source is either a
plain float or an ImtWeight (logictree.py lines 147-153). -/
inductive PyWeight : Type where
  | flt (w : ℚ)
  | imt (w : ImtWeight)
deriving DecidableEq

/-- Probability used by sample for one object: the float itself, or the
default component of a composite weight (logictree.py lines 150-153). -/
def PyWeight.toQ : PyWeight → ℚ
  | .flt w => w
  | .imt w => w.get "weight"

/-- Object with a weight attribute, the element shape consumed by sample. -/
structure Weighted (α : Type) where
  obj : α
  weight : PyWeight
deriving DecidableEq

/-- Embedding of sample (logictree.py lines 133-157): extract the per-object
probabilities, reseed the global generator from the seed, draw num_samples
indices and return the corresponding objects in draw order, together with the
generator state left behind.  The incoming state is the global numpy state the
call starts from. -/
def sample {α : Type} (weighted_objects : List (Weighted α))
    (num_samples seed st : ℕ) : List (Weighted α) × ℕ :=
  let weights := weighted_objects.map fun o => o.weight.toQ
  let (idxs, st2) := npChoice weights num_samples (npSeed seed)
  (idxs.filterMap fun i => weighted_objects.get? i, st2)

mutual

/-- Embedding of SourceModelLogicTree.sample_path (logictree.py lines
585-597) at one branchset: one branch is drawn by sample(branches, 1, seed)
-- which reseeds the generator from the same seed at every level -- and the
walk descends into its child branchset. -/
def samplePathBS : BranchSet → ℕ → ℕ → List Branch × ℕ
  | .mk _ brs, seed, st =>
      let ws := brs.map Branch.weight
      let (idxs, st2) := npChoice ws 1 (npSeed seed)
      samplePathPick brs (idxs.headD 0) seed st2

/-- Selection of branches[idx] followed by the descent of sample_path into the
child branchset, written as a walk so that the recursion is structural. -/
def samplePathPick : List Branch → ℕ → ℕ → ℕ → List Branch × ℕ
  | [], _, _, st => ([], st)
  | .mk s i w v none :: _, 0, _, st => ([.mk s i w v none], st)
  | .mk s i w v (some bs) :: _, 0, seed, st =>
      let (rest, st2) := samplePathBS bs seed st
      (.mk s i w v (some bs) :: rest, st2)
  | _ :: brs, n + 1, seed, st => samplePathPick brs n seed st

end

/-- The num_samples independent sample walks of SourceModelLogicTree.__iter__
(logictree.py lines 605-612), with seeds seed, seed+1, ... and the generator
state threaded through. -/
def sampleWalks (bs : BranchSet) : ℕ → ℕ → ℕ → List (List Branch)
  | _, 0, _ => []
  | seed, n + 1, st =>
      let (path, st2) := samplePathBS bs seed st
      path :: sampleWalks bs (seed + 1) n st2

/-- SourceModelLogicTree restricted to the state its iteration reads
(logictree.py lines 446-463): the root branchset, the sampling seed and the
number of samples. -/
structure SourceModelLogicTree where
  root_branchset : BranchSet
  seed : ℕ
  num_samples : ℕ

/-- Embedding of SourceModelLogicTree.__iter__ (logictree.py lines 599-620):
with num_samples nonzero it yields one Realization per sample walk with the
homogeneous weight 1/num_samples and no ordinal; otherwise it enumerates the
root branchset, assigning ordinals 0,1,2,... in depth-first order. -/
def SourceModelLogicTree.iter (t : SourceModelLogicTree) (st : ℕ) :
    List Realization :=
  if t.num_samples ≠ 0 then
    (sampleWalks t.root_branchset t.seed t.num_samples st).map fun path =>
      ⟨headValue path, 1 / (t.num_samples : ℚ), none,
        path.map Branch.branch_id, 1⟩
  else
    (t.root_branchset.enumerate_paths).enum.map fun ip =>
      ⟨headValue ip.2.2, ip.2.1, some ip.1, ip.2.2.map Branch.branch_id, 1⟩

/-- Python str.split() on whitespace, dropping empty fields, implemented over
the character list so that it evaluates in the kernel. -/
def pySplitAux : List Char → List Char → List String
  | [], acc => if acc.isEmpty then [] else [String.mk acc.reverse]
  | c :: cs, acc =>
      if c = ' ' then
        if acc.isEmpty then pySplitAux cs []
        else String.mk acc.reverse :: pySplitAux cs []
      else pySplitAux cs (c :: acc)

/-- Python str.split() with no argument, as used on filter values and branch
ids in logictree.py. -/
def pySplit (s : String) : List String :=
  pySplitAux s.data []

/-- Errors raised while a source-model logic tree is parsed (LogicTreeError in
the source, distinguished here by their message). -/
inductive LtError : Type where
  | dupBranchID (branch_id : String)
  | weightSum
  | dupValues
deriving DecidableEq

/-- Data of one logicTreeBranch node as seen by parse_branches: the branchID
attribute, the uncertaintyWeight text and the optional uncertaintyModel
text (already stripped). -/
structure BranchNode where
  branch_id : String
  weight : ℚ
  value : Option String
deriving DecidableEq

/-- Loop body of SourceModelLogicTree.parse_branches (logictree.py lines
547-574): walk the branch nodes accumulating the weight sum and the list of
uncertaintyModel values, failing on a branchID already present in the
tree-wide registry; returns the extended registry together with the weight
sum and the values. -/
def parseLoop (known : List String) :
    List BranchNode → Except LtError (List String × ℚ × List String)
  | [] => .ok (known, 0, [])
  | n :: rest =>
      if n.branch_id ∈ known then .error (.dupBranchID n.branch_id)
      else
        match parseLoop (known ++ [n.branch_id]) rest with
        | .error e => .error e
        | .ok (k, s, vs) =>
            .ok (k, n.weight + s,
              match n.value with
              | some v => v :: vs
              | none => vs)

/-- Embedding of SourceModelLogicTree.parse_branches (logictree.py lines
531-583): after the loop over the branch nodes, fail if the weight sum is not
1 within PRECISION, then fail if the uncertaintyModel values are not pairwise
distinct; on success return the extended tree-wide registry of branch ids.
(The scanning of referenced source-model files and parse_uncertainty live
outside src/ and are not modelled.) -/
def parse_branches (known : List String) (nodes : List BranchNode) :
    Except LtError (List String) :=
  match parseLoop known nodes with
  | .error e => .error e
  | .ok (k, weight_sum, values) =>
      if PRECISION < |weight_sum - 1| then .error .weightSum
      else if values.dedup.length < values.length then .error .dupValues
      else .ok k

/-- Embedding of SourceModelLogicTree.validate_filters (logictree.py lines
632-707).  Inputs: the tectonic region types, source types and per-branch
source-id lists harvested from the scanned source models, whether the
branchset node carries an applyToBranches attribute, the uncertainty type and
the filters dictionary (an association list with at most one entry per filter
name, holding the raw attribute strings). -/
def validate_filters (tectonic_region_types source_types : List String)
    (source_ids : List (List String)) (hasApplyToBranches : Bool)
    (uncertainty_type : String) (filters : List (String × String)) :
    Except String Unit :=
  if uncertainty_type = "sourceModel" ∧ filters ≠ [] then
    .error "filters are not allowed on source model uncertainty"
  else if 1 < filters.length then
    .error "only one filter is allowed per branchset"
  else if (filters.lookup "applyToTectonicRegionType").any
      (fun v => decide (¬ v ∈ tectonic_region_types)) then
    .error "source models do not define sources of this tectonic region type"
  else if uncertainty_type ∈ ["abGRAbsolute", "maxMagGRAbsolute",
        "simpleFaultGeometryAbsolute", "complexFaultGeometryAbsolute"] ∧
      (filters = [] ∨ filters.map Prod.fst ≠ ["applyToSources"] ∨
        (pySplit ((filters.lookup "applyToSources").getD "")).length ≠ 1) then
    .error "absolute uncertainty must define applyToSources with one source id"
  else if uncertainty_type ∈ ["simpleFaultDipRelative", "simpleFaultDipAbsolute"] ∧
      (filters = [] ∨ (filters.lookup "applyToSources" = none ∧
        filters.lookup "applyToSourceType" = none)) then
    .error "dip uncertainty must define applyToSources or applyToSourceType"
  else if (filters.lookup "applyToSourceType").any
      (fun v => decide (¬ v ∈ source_types)) then
    .error "source models do not define sources of this type"
  else if (filters.lookup "applyToSources").any
      (fun _ => decide (1 < source_ids.length ∧ hasApplyToBranches = false)) then
    .error "applyToBranch must be specified together with applyToSources"
  else if (filters.lookup "applyToSources").any
      (fun s => (pySplit s).any fun sid =>
        source_ids.all fun l => decide (¬ sid ∈ l)) then
    .error "source id is not defined in source models"
  else .ok ()

/-- Ground-motion model payload of a gsim branch.  A base model is identified
by its name; collapse builds an AvgGMPE whose kwargs dictionary maps each
original branch id to the class name of its model (the nested kwargs are
elided) and whose weights are the default components of the original
weights (logictree.py lines 1114-1120). -/
inductive Gsim : Type where
  | base (name : String)
  | avg (kwargs : List (String × String)) (weights : List ℚ)
deriving DecidableEq

/-- Class name of a gsim payload, gsim.__class__.__name__ in the source. -/
def Gsim.clsName : Gsim → String
  | .base n => n
  | .avg _ _ => "AvgGMPE"

/-- BranchTuple (logictree.py line 884): trt, id, gsim, weight, effective. -/
structure BranchTuple where
  trt : String
  id : String
  gsim : Gsim
  weight : ImtWeight
  effective : Bool
deriving DecidableEq

/-- Grouping of a list into maximal runs of elements with the same key, the
behaviour of itertools.groupby as used on the trt-sorted branch list. -/
def chunkBy {α : Type} (key : α → String) : List α → List (List α)
  | [] => []
  | a :: rest =>
      match chunkBy key rest with
      | [] => [[a]]
      | [] :: gs => [a] :: gs
      | (b :: g) :: gs =>
          if key a = key b then (a :: b :: g) :: gs
          else [a] :: (b :: g) :: gs

/-- GsimLogicTree restricted to the state its group operations read
(logictree.py lines 989-1006): the branch list (sorted by trt) and the
mapping trt -> branchset id. -/
structure GsimLogicTree where
  branches : List BranchTuple
  bs_id_by_trt : List (String × String)
deriving DecidableEq

/-- Loop body of GsimLogicTree.collapse (logictree.py lines 1105-1123) for
one consecutive trt group: collect ids, gsims and weights; a group with more
than one model whose branchset id is among branchset_ids is replaced by a
single synthetic AvgGMPE branch carrying the summed weight; otherwise the
loop appends br, the variable left by the inner loop, i.e. only the last
branch of the group. -/
def collapseGroup (bs_id_by_trt : List (String × String))
    (branchset_ids : List String) : List BranchTuple → List BranchTuple
  | [] => []
  | g0 :: rest =>
      let bs_id := (bs_id_by_trt.lookup g0.trt).getD ""
      let brs := (g0 :: rest).map BranchTuple.id
      let gsims := (g0 :: rest).map BranchTuple.gsim
      let weights := (g0 :: rest).map BranchTuple.weight
      if 1 < gsims.length ∧ bs_id ∈ branchset_ids then
        [⟨g0.trt, bs_id, Gsim.avg (brs.zip (gsims.map Gsim.clsName))
            (weights.map (ImtWeight.get · "weight")),
          sumWeights weights, true⟩]
      else [rest.getLastD g0]

/-- Embedding of GsimLogicTree.collapse (logictree.py lines 1095-1124): the
branch list is rebuilt by iterating collapseGroup over the consecutive trt
groups of itertools.groupby. -/
def GsimLogicTree.collapse (t : GsimLogicTree) (branchset_ids : List String) :
    GsimLogicTree :=
  ⟨((chunkBy BranchTuple.trt t.branches).map
      (collapseGroup t.bs_id_by_trt branchset_ids)).flatten,
    t.bs_id_by_trt⟩

/-- Embedding of GsimLogicTree.get_num_branches (logictree.py lines
1126-1135): the number of effective branches per consecutive trt group. -/
def GsimLogicTree.get_num_branches (t : GsimLogicTree) : List (String × ℕ) :=
  (chunkBy BranchTuple.trt t.branches).filterMap fun grp =>
    match grp with
    | [] => none
    | g0 :: rest => some (g0.trt, (g0 :: rest).countP (·.effective))

/-- Embedding of GsimLogicTree.get_num_paths (logictree.py lines 1137-1150):
0 when the effective branch counts sum to 0, otherwise the product of the
counts in which groups with no effective branch are skipped by the "if val"
guard. -/
def GsimLogicTree.get_num_paths (t : GsimLogicTree) : ℕ :=
  let num_branches := t.get_num_branches
  if (num_branches.map Prod.snd).sum = 0 then 0
  else num_branches.foldl (fun acc kv => if kv.2 ≠ 0 then acc * kv.2 else acc) 1

/-- One row of the branch table written by SourceModelLogicTree.__toh5__
(logictree.py lines 846-857): owning branchset id, branch id, uncertainty
type, uncertainty value as text, weight. -/
structure LtRow where
  branchset : String
  branch : String
  utype : String
  uvalue : String
  weight : ℚ
deriving DecidableEq

/-- Metadata of one branchset as recorded in bsetdict during parsing
(logictree.py line 505) and round-tripped as attrs by __toh5__/__fromh5__:
the branchset id, the uncertaintyType attribute and the optional
applyToBranches attribute. -/
structure BsetAttrs where
  branchSetID : String
  uncertaintyType : String
  applyToBranches : Option String
deriving DecidableEq

/-- Embedding of the table part of SourceModelLogicTree.__toh5__ (logictree.py
lines 846-857): one row per branch of the insertion-ordered branch registry,
with the uncertainty type taken from the branchset metadata. -/
def toh5 (branches : List Branch) (bsetdict : List BsetAttrs) : List LtRow :=
  branches.map fun br =>
    ⟨br.bs_id, br.branch_id,
      (((bsetdict.find? fun a => a.branchSetID == br.bs_id).map
          BsetAttrs.uncertaintyType).getD ""),
      br.value, br.weight⟩

/-- Lookup of the applyToBranches attribute stored for a branchset id, the
attrs[childset.id] access of __fromh5__ (logictree.py line 871). -/
def atbOf (bsetdict : List BsetAttrs) (bsid : String) : Option String :=
  (bsetdict.find? fun a => a.branchSetID == bsid).bind BsetAttrs.applyToBranches

/-- First occurrences of each key, in order of first appearance. -/
def uniqKeys : List String → List String
  | [] => []
  | k :: rest => k :: (uniqKeys rest).filter (· ≠ k)

/-- Modelled from the spec: group_array (openquake.baselib, outside src/)
groups the branch rows of the persisted table by the branchset column, keys
in first-appearance order, rows keeping their order inside each group. -/
def groupByKey (rows : List LtRow) : List (String × List LtRow) :=
  (uniqKeys (rows.map LtRow.branchset)).map fun k =>
    (k, rows.filter fun r => r.branchset == k)

/-- Branchset rebuilt from one row group in __fromh5__ (logictree.py lines
861-868): the uncertainty type of the first row, and one child-less Branch
per row. -/
def bsetFromRows (bsid : String) (rs : List LtRow) : BranchSet :=
  .mk (match rs with
       | [] => ""
       | r :: _ => r.utype)
    (rs.map fun r => .mk bsid r.branch r.weight r.uvalue none)

/-- Replacement of the bset attribute of a branch, branch.bset = ... in
__fromh5__. -/
def Branch.withChild : Branch → Option BranchSet → Branch
  | .mk s i w v _, o => .mk s i w v o

/-- Helper for pyInStr: does the needle occur at some position of the
haystack character list. -/
def pyInStrAux (nd : List Char) : List Char → Bool
  | [] => nd.isEmpty
  | c :: cs => nd.isPrefixOf (c :: cs) || pyInStrAux nd cs

/-- Python substring membership (needle in haystack), the membership test
branch.branch_id in atb of __fromh5__ (logictree.py line 874). -/
def pyInStr (needle hay : String) : Bool :=
  pyInStrAux needle.data hay.data

/-- Embedding of SourceModelLogicTree.__fromh5__ (logictree.py lines 859-877)
restricted to the tree reachable from the root branchset it produces.  The
groups are rebuilt as child-less branchsets; the linking loop iterates over
pairs (parent group i, child group i+1) but assigns branch.bset = bset, where
bset is the stale variable left by the first loop, i.e. the LAST branchset,
guarded by the applyToBranches attribute of group i+1; so the root branches
are linked directly to the last branchset (which is also the correct child
when there are exactly two groups), and the intermediate branchsets are
unreachable from the returned root. -/
def fromh5 (rows : List LtRow) (bsetdict : List BsetAttrs) : BranchSet :=
  let bsets := (groupByKey rows).map fun kv => (kv.1, bsetFromRows kv.1 kv.2)
  match bsets with
  | [] => .mk "" []
  | (_, root0) :: rest =>
      match rest, bsets.getLast? with
      | [], _ => root0
      | (nextId, _) :: _, some lastkv =>
          let atb := atbOf bsetdict nextId
          .mk root0.uncertainty_type
            (root0.branches.map fun b =>
              match atb with
              | none => b.withChild (some lastkv.2)
              | some s =>
                  if pyInStr b.branch_id s then b.withChild (some lastkv.2)
                  else b)
      | _ :: _, none => root0

/-- Full enumeration of a branchset as the Realization sequence produced by
SourceModelLogicTree.__iter__ with num_samples = 0. -/
def enumRealizations (bs : BranchSet) : List Realization :=
  (SourceModelLogicTree.mk bs 0 0).iter 0

/-- Scenario A, second level: branchset of kind maxMagGRRelative with two
branches of weight 0.5 and values +0.2 and -0.2. -/
def bsLevel2 : BranchSet :=
  .mk "maxMagGRRelative"
    [.mk "bs2" "b3" (1/2) "0.2" none, .mk "bs2" "b4" (1/2) "-0.2" none]

/-- Scenario A: root branchset of kind sourceModel with branches A (weight
0.6) and B (weight 0.4), each carrying the second-level branchset. -/
def scenarioA : BranchSet :=
  .mk "sourceModel"
    [.mk "bs1" "b1" (6/10) "A" (some bsLevel2),
     .mk "bs1" "b2" (4/10) "B" (some bsLevel2)]

/-- Scenario B: the Scenario A tree sampled with numSamples = 10, seed = 42. -/
def scenarioB : SourceModelLogicTree :=
  ⟨scenarioA, 42, 10⟩

/-- Three-level chain used against the round-trip claim: third level. -/
def chainBS3 : BranchSet :=
  .mk "bGRRelative" [.mk "bs3" "c3" 1 "0.1" none]

/-- Three-level chain: second level, child of the root branch. -/
def chainBS2 : BranchSet :=
  .mk "maxMagGRRelative" [.mk "bs2" "c2" 1 "0.2" (some chainBS3)]

/-- Three-level chain: root branchset with a single source-model branch. -/
def chainRoot : BranchSet :=
  .mk "sourceModel" [.mk "bs1" "c1" 1 "sm" (some chainBS2)]

/-- Insertion-ordered branch registry of the three-level chain, as
SourceModelLogicTree.parse_branches would have filled self.branches. -/
def chainBranches : List Branch :=
  [.mk "bs1" "c1" 1 "sm" (some chainBS2),
   .mk "bs2" "c2" 1 "0.2" (some chainBS3),
   .mk "bs3" "c3" 1 "0.1" none]

/-- Branchset metadata of the three-level chain (no applyToBranches). -/
def chainBsetdict : List BsetAttrs :=
  [⟨"bs1", "sourceModel", none⟩,
   ⟨"bs2", "maxMagGRRelative", none⟩,
   ⟨"bs3", "bGRRelative", none⟩]

/-- Composite weight 0.5 carried by every Scenario C branch. -/
def wHalf : ImtWeight := ⟨[("weight", 1/2)]⟩

/-- Scenario C: two tectonic region types, Active and Stable, with two
effective branches of weight 0.5 each; branches sorted by (trt, id). -/
def scenarioC : GsimLogicTree :=
  ⟨[⟨"Active", "bA1", .base "GA1", wHalf, true⟩,
    ⟨"Active", "bA2", .base "GA2", wHalf, true⟩,
    ⟨"Stable", "bS1", .base "GS1", wHalf, true⟩,
    ⟨"Stable", "bS2", .base "GS2", wHalf, true⟩],
   [("Active", "bsA"), ("Stable", "bsS")]⟩

/-- Gsim tree with one non-effective group (trt A) and one group with two
effective branches (trt B), as produced by reduce on the trt subset B. -/
def mixedEffective : GsimLogicTree :=
  ⟨[⟨"A", "a1", .base "G1", wHalf, false⟩,
    ⟨"B", "b1", .base "G2", wHalf, true⟩,
    ⟨"B", "b2", .base "G3", wHalf, true⟩],
   [("A", "bsA"), ("B", "bsB")]⟩

/-- Branch nodes whose weights sum to 0.9, the failing input of the weight
check of parse_branches. -/
def nodes09 : List BranchNode :=
  [⟨"x1", 1/2, some "m1"⟩, ⟨"x2", 2/5, some "m2"⟩]

/-- Two composite weights whose PGA component is 0 on both branches: their
sum has default component 1 and PGA component 0. -/
def imtZeroPGA : ImtWeight := ⟨[("weight", 1/2), ("PGA", 0)]⟩

/-- Composite weight with keys weight and PGA, left operand of the addition
counterexample. -/
def imtX : ImtWeight := ⟨[("weight", 1/2), ("PGA", 3/10)]⟩

/-- Composite weight with the single key weight, right operand of the
addition counterexample. -/
def imtY : ImtWeight := ⟨[("weight", 1/2)]⟩

/-- Concrete weighted objects, weights 0.5/0.5, for the sampling witness. -/
def twoObjs : List (Weighted String) :=
  [⟨"u", .flt (1/2)⟩, ⟨"v", .flt (1/2)⟩]

/-- Weight-sum assertion of GsimLogicTree._build_trts_branches (logictree.py
lines 1202-1203): the branch weights of one gsim branchset are summed and
asserted to be one via ImtWeight.is_one; construction fails otherwise. -/
def checkBsetWeights (weights : List ImtWeight) : Except String Unit :=
  if (sumWeights weights).is_one then .ok ()
  else .error "branchset weights do not sum to one"

/-- Proof helper: extension of a nested path by a flat list of branches. -/
def pathAppend (pre : PyPath) (l : List Branch) : PyPath :=
  l.foldl PyPath.snoc pre

/-- Trt of the first branch of a group, with a default for empty groups. -/
def headTrt : List BranchTuple → String
  | [] => ""
  | b :: _ => b.trt

/-- Synthetic model-averaging branch built by collapse for one group
(logictree.py lines 1114-1121). -/
def avgBranchOf (bs_id : String) (g : List BranchTuple) : BranchTuple :=
  ⟨headTrt g, bs_id,
    Gsim.avg ((g.map BranchTuple.id).zip ((g.map BranchTuple.gsim).map Gsim.clsName))
      ((g.map BranchTuple.weight).map (ImtWeight.get · "weight")),
    sumWeights (g.map BranchTuple.weight), true⟩

theorem pathAppend_cons (pre : PyPath) (b : Branch) (l : List Branch) :
    pathAppend pre (b :: l) = pathAppend (.snoc pre b) l := rfl

theorem pathFlat_append (l : List Branch) :
    ∀ pre : PyPath, pathFlat (pathAppend pre l) = pathFlat pre ++ l := by
  induction l with
  | nil => intro pre; simp [pathAppend, pathFlat]
  | cons b rest ih =>
      intro pre
      rw [pathAppend_cons, ih]
      simp [pathFlat]

theorem pathWeight_append (l : List Branch) :
    ∀ pre : PyPath, pathWeight (pathAppend pre l) =
      pathWeight pre * pathWeightProd l := by
  induction l with
  | nil => intro pre; simp [pathAppend, pathWeightProd]
  | cons b rest ih =>
      intro pre
      rw [pathAppend_cons, ih]
      simp [pathWeight, pathWeightProd]
      ring

mutual

theorem enumPathsList_eq (brs : List Branch) (pre : PyPath) :
    enumPathsList brs pre = (dfsLeafPathsList brs).map (pathAppend pre) := by
  match brs with
  | [] => simp [enumPathsList, dfsLeafPathsList]
  | b :: rest =>
      have h1 := enumPathsBranch_eq b pre
      have h2 := enumPathsList_eq rest pre
      simp [enumPathsList, dfsLeafPathsList, h1, h2]

theorem enumPathsBranch_eq (b : Branch) (pre : PyPath) :
    enumPathsBranch b pre = (dfsLeafPathsBranch b).map (pathAppend pre) := by
  match b with
  | .mk s i w v none =>
      simp [enumPathsBranch, dfsLeafPathsBranch, pathAppend]
  | .mk s i w v (some (.mk u brs)) =>
      have h := enumPathsList_eq brs (.snoc pre (.mk s i w v (some (.mk u brs))))
      simp only [enumPathsBranch, dfsLeafPathsBranch, h, List.map_map]
      rfl

end

theorem enumerate_paths_eq (bs : BranchSet) :
    bs.enumerate_paths =
      (dfsLeafPathsList bs.branches).map fun l => (pathWeightProd l, l) := by
  unfold BranchSet.enumerate_paths
  rw [enumPathsList_eq, List.map_map]
  refine List.map_congr_left fun l _ => ?_
  simp [Function.comp, pathWeight_append, pathFlat_append, pathWeight, pathFlat]

theorem sum_map_mul_left_q (c : ℚ) (f : List Branch → ℚ) (l : List (List Branch)) :
    ((l.map fun x => c * f x).sum) = c * (l.map f).sum := by
  induction l with
  | nil => simp
  | cons x rest ih => simp [ih]; ring

mutual

theorem dfs_wsum_list (brs : List Branch) (h : wwList brs = true) :
    ((dfsLeafPathsList brs).map pathWeightProd).sum =
      (brs.map Branch.weight).sum := by
  match brs with
  | [] => simp [dfsLeafPathsList]
  | b :: rest =>
      have hb : wwBranch b = true := by
        have := h; simp [wwList] at this; exact this.1
      have hr : wwList rest = true := by
        have := h; simp [wwList] at this; exact this.2
      have h1 := dfs_wsum_branch b hb
      have h2 := dfs_wsum_list rest hr
      simp [dfsLeafPathsList, h1, h2]

theorem dfs_wsum_branch (b : Branch) (h : wwBranch b = true) :
    ((dfsLeafPathsBranch b).map pathWeightProd).sum = b.weight := by
  match b with
  | .mk s i w v none =>
      simp [dfsLeafPathsBranch, pathWeightProd, Branch.weight]
  | .mk s i w v (some (.mk u brs)) =>
      have hsum : (brs.map Branch.weight).sum = 1 := by
        have := h; simp [wwBranch] at this; exact this.1
      have hww : wwList brs = true := by
        have := h; simp [wwBranch] at this; exact this.2
      have h1 := dfs_wsum_list brs hww
      simp only [dfsLeafPathsBranch, List.map_map]
      have : ((dfsLeafPathsList brs).map
          (pathWeightProd ∘ (Branch.mk s i w v (some (.mk u brs)) :: ·))) =
          (dfsLeafPathsList brs).map fun l => w * pathWeightProd l := by
        refine List.map_congr_left fun l _ => ?_
        simp [Function.comp, pathWeightProd, Branch.weight]
      rw [this, sum_map_mul_left_q, h1, hsum]
      simp [Branch.weight]

end

/-- C1: on every source-model logic tree whose branchsets all have weights
summing to 1, full enumeration (SourceModelLogicTree.__iter__ with
num_samples = 0, via BranchSet.enumerate_paths) yields exactly one
realization per root-to-leaf path, in depth-first left-to-right order with
ordinals 0,1,2,..., each weight being the product of the branch weights along
the path, and the weights summing to 1; in particular the Scenario A tree
enumerates exactly 4 realizations with weights 0.3, 0.3, 0.2, 0.2. -/
theorem c1_full_enumeration (bs : BranchSet) (h : bs.wellWeighted = true) :
    ((bs.enumerate_paths).map Prod.snd = bs.dfsLeafPaths ∧
     (∀ pr ∈ bs.enumerate_paths, pr.1 = pathWeightProd pr.2) ∧
     ((bs.enumerate_paths).map Prod.fst).sum = 1 ∧
     (∀ (t : SourceModelLogicTree) (st : ℕ), t.num_samples = 0 →
        t.root_branchset = bs →
        t.iter st = (bs.enumerate_paths).enum.map fun ip =>
          ⟨headValue ip.2.2, ip.2.1, some ip.1,
            ip.2.2.map Branch.branch_id, 1⟩)) ∧
    enumRealizations scenarioA =
      [⟨"A", 3/10, some 0, ["b1", "b3"], 1⟩,
       ⟨"A", 3/10, some 1, ["b1", "b4"], 1⟩,
       ⟨"B", 1/5, some 2, ["b2", "b3"], 1⟩,
       ⟨"B", 1/5, some 3, ["b2", "b4"], 1⟩] := by
  constructor
  · refine ⟨?_, ?_, ?_, ?_⟩
    · rw [enumerate_paths_eq, List.map_map]
      have hc : (Prod.snd ∘ fun l : List Branch => (pathWeightProd l, l)) =
          id := rfl
      rw [hc, List.map_id]
      rfl
    · intro pr hpr
      rw [enumerate_paths_eq] at hpr
      simp only [List.mem_map] at hpr
      obtain ⟨l, _, rfl⟩ := hpr
      rfl
    · rw [enumerate_paths_eq, List.map_map]
      have hc : (Prod.fst ∘ fun l : List Branch => (pathWeightProd l, l)) =
          pathWeightProd := rfl
      rw [hc]
      cases bs with
      | mk u brs =>
          simp only [BranchSet.wellWeighted, Bool.and_eq_true,
            decide_eq_true_eq] at h
          show ((dfsLeafPathsList brs).map pathWeightProd).sum = 1
          rw [dfs_wsum_list brs h.2, h.1]
    · intro t st h0 hroot
      simp [SourceModelLogicTree.iter, h0, hroot]
  · simp [enumRealizations, SourceModelLogicTree.iter, scenarioA, bsLevel2,
      BranchSet.enumerate_paths, BranchSet.branches, enumPathsList,
      enumPathsBranch, pathWeight, pathFlat, headValue, Branch.branch_id,
      Branch.value, Branch.weight, List.enum]
    norm_num

/-- Witness for c1_full_enumeration: the Scenario A tree satisfies the
weight-sum hypothesis and its enumerated weights sum to 1. -/
theorem c1_full_enumeration_witness :
    scenarioA.wellWeighted = true ∧
    ((scenarioA.enumerate_paths).map Prod.fst).sum = 1 := by
  have h : scenarioA.wellWeighted = true := by
    simp [scenarioA, bsLevel2, BranchSet.wellWeighted, wwList, wwBranch,
      Branch.weight]
    norm_num
  exact ⟨h, (c1_full_enumeration scenarioA h).1.2.2.1⟩

mutual

theorem samplePathBS_state (bs : BranchSet) (seed st1 st2 : ℕ) :
    (samplePathBS bs seed st1).1 = (samplePathBS bs seed st2).1 := by
  match bs with
  | .mk u brs =>
      exact samplePathPick_state brs _ seed _ _

theorem samplePathPick_state (brs : List Branch) (n seed st1 st2 : ℕ) :
    (samplePathPick brs n seed st1).1 = (samplePathPick brs n seed st2).1 := by
  match brs, n with
  | [], _ => simp [samplePathPick]
  | .mk s i w v none :: _, 0 => simp [samplePathPick]
  | .mk s i w v (some bs) :: _, 0 =>
      show Branch.mk s i w v (some bs) :: (samplePathBS bs seed st1).1 =
        Branch.mk s i w v (some bs) :: (samplePathBS bs seed st2).1
      rw [samplePathBS_state bs seed st1 st2]
  | b :: brs, n + 1 =>
      simp only [samplePathPick]
      exact samplePathPick_state brs n seed st1 st2

end

theorem sampleWalks_state (bs : BranchSet) :
    ∀ (n seed st1 st2 : ℕ),
      sampleWalks bs seed n st1 = sampleWalks bs seed n st2 := by
  intro n
  induction n with
  | zero => intro seed st1 st2; rfl
  | succ m ih =>
      intro seed st1 st2
      simp only [sampleWalks]
      rw [samplePathBS_state bs seed st1 st2, ih]

theorem sampleWalks_get (bs : BranchSet) :
    ∀ (n i seed st : ℕ), i < n →
      (sampleWalks bs seed n st).get? i =
        some (samplePathBS bs (seed + i) 0).1 := by
  intro n
  induction n with
  | zero => intro i seed st h; omega
  | succ m ih =>
      intro i seed st h
      cases i with
      | zero =>
          show some (samplePathBS bs seed st).1 =
            some (samplePathBS bs (seed + 0) 0).1
          rw [Nat.add_zero, samplePathBS_state bs seed st 0]
      | succ j =>
          show (sampleWalks bs (seed + 1) m (samplePathBS bs seed st).2).get? j =
            some (samplePathBS bs (seed + (j + 1)) 0).1
          rw [ih j (seed + 1) _ (by omega)]
          have hs : seed + 1 + j = seed + (j + 1) := by omega
          rw [hs]

/-- C4: with num_samples = n > 0 and seed s the iteration performs n sample
walks with seeds s, s+1, ..., s+n-1 and yields exactly n realizations of
uniform weight 1/n and no ordinal; with num_samples = 0 it delegates to full
enumeration; Scenario B yields 10 realizations of weight 0.1 and is
bit-identical under repetition (for any two generator states). -/
theorem c4_sampling_iteration :
    (∀ (t : SourceModelLogicTree) (st : ℕ), t.num_samples ≠ 0 →
      (t.iter st).length = t.num_samples ∧
      (∀ r ∈ t.iter st, r.weight = 1 / (t.num_samples : ℚ) ∧
        r.ordinal = none ∧ r.samples = 1) ∧
      (∀ i < t.num_samples,
        (t.iter st).get? i = some
          ⟨headValue (samplePathBS t.root_branchset (t.seed + i) 0).1,
           1 / (t.num_samples : ℚ), none,
           (samplePathBS t.root_branchset (t.seed + i) 0).1.map Branch.branch_id,
           1⟩)) ∧
    (∀ (t : SourceModelLogicTree) (st : ℕ), t.num_samples = 0 →
      t.iter st = enumRealizations t.root_branchset) ∧
    ((scenarioB.iter 0).length = 10 ∧
     (∀ r ∈ scenarioB.iter 0, r.weight = 1/10) ∧
     (∀ st1 st2 : ℕ, scenarioB.iter st1 = scenarioB.iter st2)) := by
  have hlen : ∀ (bs : BranchSet) (seed n st : ℕ),
      (sampleWalks bs seed n st).length = n := by
    intro bs seed n
    induction n generalizing seed with
    | zero => intro st; rfl
    | succ m ih =>
        intro st
        simp only [sampleWalks, List.length_cons]
        rw [ih]
  have hmain : ∀ (t : SourceModelLogicTree) (st : ℕ), t.num_samples ≠ 0 →
      (t.iter st).length = t.num_samples ∧
      (∀ r ∈ t.iter st, r.weight = 1 / (t.num_samples : ℚ) ∧
        r.ordinal = none ∧ r.samples = 1) ∧
      (∀ i < t.num_samples,
        (t.iter st).get? i = some
          ⟨headValue (samplePathBS t.root_branchset (t.seed + i) 0).1,
           1 / (t.num_samples : ℚ), none,
           (samplePathBS t.root_branchset (t.seed + i) 0).1.map Branch.branch_id,
           1⟩) := by
    intro t st hn
    refine ⟨?_, ?_, ?_⟩
    · simp only [SourceModelLogicTree.iter, if_pos hn, List.length_map]
      exact hlen _ _ _ _
    · intro r hr
      simp only [SourceModelLogicTree.iter, if_pos hn, List.mem_map] at hr
      obtain ⟨p, _, rfl⟩ := hr
      exact ⟨rfl, rfl, rfl⟩
    · intro i hi
      simp only [SourceModelLogicTree.iter, if_pos hn, List.get?_map]
      rw [sampleWalks_get t.root_branchset t.num_samples i t.seed st hi]
      rfl
  refine ⟨hmain, ?_, ?_, ?_, ?_⟩
  · intro t st h0
    simp [SourceModelLogicTree.iter, h0, enumRealizations]
  · exact (hmain scenarioB 0 (by decide)).1
  · intro r hr
    have := ((hmain scenarioB 0 (by decide)).2.1 r hr).1
    rw [this]
    norm_num [scenarioB]
  · intro st1 st2
    simp only [SourceModelLogicTree.iter]
    rw [if_pos (by decide : scenarioB.num_samples ≠ 0),
      if_pos (by decide : scenarioB.num_samples ≠ 0),
      sampleWalks_state scenarioB.root_branchset scenarioB.num_samples
        scenarioB.seed st1 st2]

/-- Witness for c4_sampling_iteration: Scenario B has nonzero num_samples and
its iteration yields exactly 10 realizations. -/
theorem c4_sampling_iteration_witness :
    scenarioB.num_samples ≠ 0 ∧ (scenarioB.iter 0).length = 10 := by
  refine ⟨by decide, ?_⟩
  have h := (c4_sampling_iteration.1 scenarioB 0 (by decide)).1
  simpa [scenarioB] using h

/-- C9: sampling is deterministic in the seed: sample_path taken twice from
any two generator states returns the same branch path, and sample on a
weighted sequence summing to 1 returns the same drawn subsequence whatever
state the generator was in, because both reseed the generator from the seed;
different seeds may give different outputs, as seeds 7 and 8 do on two
objects of weight 0.5. -/
theorem c9_sampling_deterministic :
    (∀ (bs : BranchSet) (seed st1 st2 : ℕ),
      (samplePathBS bs seed st1).1 = (samplePathBS bs seed st2).1) ∧
    (∀ (α : Type) (objs : List (Weighted α)) (n seed st1 st2 : ℕ),
      (objs.map fun o => o.weight.toQ).sum = 1 →
      (sample objs n seed st1).1 = (sample objs n seed st2).1) ∧
    (sample twoObjs 3 7 0).1 ≠ (sample twoObjs 3 8 0).1 := by
  refine ⟨samplePathBS_state, fun α objs n seed st1 st2 _ => rfl, ?_⟩
  simp only [sample, twoObjs, npSeed, npChoice, lcgNext, pickIdx,
    PyWeight.toQ, List.map]
  norm_num
  simp [List.filterMap_cons]

/-- Witness for c9_sampling_deterministic: two objects of weight 0.5 sum to 1
and sampling them twice with seed 5 from different states coincides. -/
theorem c9_sampling_deterministic_witness :
    (twoObjs.map fun o => o.weight.toQ).sum = 1 ∧
    (sample twoObjs 2 5 0).1 = (sample twoObjs 2 5 99).1 := by
  have h : (twoObjs.map fun o => o.weight.toQ).sum = 1 := by
    norm_num [twoObjs, PyWeight.toQ]
  exact ⟨h, c9_sampling_deterministic.2.1 String twoObjs 2 5 0 99 h⟩

theorem dedup_length_lt_iff {l : List String} :
    l.dedup.length < l.length ↔ ¬ l.Nodup := by
  constructor
  · intro h hnd
    rw [hnd.dedup] at h
    omega
  · intro h
    have hle : l.dedup.length ≤ l.length := (List.dedup_sublist l).length_le
    rcases lt_or_eq_of_le hle with hlt | heq
    · exact hlt
    · exfalso
      apply h
      have := (List.dedup_sublist l).eq_of_length heq
      rw [← this]
      exact l.nodup_dedup

theorem parse_branches_ok_case (known : List String) (nodes : List BranchNode)
    (k : List String) (ws : ℚ) (vals : List String)
    (h : parseLoop known nodes = .ok (k, ws, vals)) :
    parse_branches known nodes =
      if PRECISION < |ws - 1| then Except.error .weightSum
      else if vals.dedup.length < vals.length then Except.error .dupValues
      else Except.ok k := by
  unfold parse_branches
  rw [h]

theorem parse_branches_error_case (known : List String) (nodes : List BranchNode)
    (e : LtError) (h : parseLoop known nodes = .error e) :
    parse_branches known nodes = .error e := by
  unfold parse_branches
  rw [h]

theorem parseLoop_ok (nodes : List BranchNode) :
    ∀ known : List String, (known ++ nodes.map BranchNode.branch_id).Nodup →
      parseLoop known nodes =
        .ok (known ++ nodes.map BranchNode.branch_id,
          (nodes.map BranchNode.weight).sum,
          nodes.filterMap BranchNode.value) := by
  induction nodes with
  | nil => intro known h; simp [parseLoop]
  | cons n rest ih =>
      intro known h
      have h0 := h
      rw [List.map_cons, List.nodup_append] at h0
      have hnotin : ¬ n.branch_id ∈ known := fun hmem =>
        h0.2.2 hmem (by simp)
      have h2 : ((known ++ [n.branch_id]) ++
          rest.map BranchNode.branch_id).Nodup := by
        rw [← List.append_cons]
        simpa using h
      simp only [parseLoop, if_neg hnotin]
      rw [ih (known ++ [n.branch_id]) h2]
      simp only [List.map_cons, List.sum_cons, List.filterMap_cons,
        ← List.append_cons]
      cases hnv : n.value <;> simp [hnv]

theorem parseLoop_error (nodes : List BranchNode) :
    ∀ known : List String, known.Nodup →
      ((∃ e, parseLoop known nodes = .error e) ↔
        ¬ (known ++ nodes.map BranchNode.branch_id).Nodup) := by
  induction nodes with
  | nil =>
      intro known hk
      constructor
      · rintro ⟨e, he⟩
        simp [parseLoop] at he
      · intro h
        simp at h
        exact absurd hk h
  | cons n rest ih =>
      intro known hk
      by_cases hmem : n.branch_id ∈ known
      · constructor
        · intro _
          intro hnd
          rw [List.map_cons, List.nodup_append] at hnd
          exact hnd.2.2 hmem (by simp)
        · intro _
          exact ⟨.dupBranchID n.branch_id, by simp [parseLoop, if_pos hmem]⟩
      · have hk2 : (known ++ [n.branch_id]).Nodup := by
          rw [List.nodup_append]
          exact ⟨hk, List.nodup_singleton _, by
            intro a ha hb
            simp at hb
            subst hb
            exact hmem ha⟩
        have hiff := ih (known ++ [n.branch_id]) hk2
        constructor
        · rintro ⟨e, he⟩
          simp only [parseLoop, if_neg hmem] at he
          cases hres : parseLoop (known ++ [n.branch_id]) rest with
          | error e2 =>
              have hnd := hiff.1 ⟨e2, hres⟩
              intro hc
              apply hnd
              rw [List.map_cons, List.append_cons] at hc
              exact hc
          | ok tri =>
              rw [hres] at he
              simp at he
        · intro hnd
          have hnd2 : ¬ ((known ++ [n.branch_id]) ++
              rest.map BranchNode.branch_id).Nodup := by
            intro hc
            apply hnd
            rw [List.map_cons, List.append_cons]
            exact hc
          obtain ⟨e, he⟩ := hiff.2 hnd2
          exact ⟨e, by simp [parseLoop, if_neg hmem, he]⟩

/-- C5: parse_branches fails exactly when some branch id repeats a known id
or an earlier id of the set, or the declared weights do not sum to 1 within
PRECISION, or duplicate uncertainty values occur in the set; in particular
two branches with weights 0.5 and 0.4 fail with the weight-sum error. -/
theorem c5_parse_branches (known : List String) (nodes : List BranchNode)
    (hk : known.Nodup) :
    ((∃ e, parse_branches known nodes = .error e) ↔
      (¬ (known ++ nodes.map BranchNode.branch_id).Nodup ∨
       PRECISION < |(nodes.map BranchNode.weight).sum - 1| ∨
       ¬ (nodes.filterMap BranchNode.value).Nodup)) ∧
    parse_branches [] nodes09 = .error .weightSum := by
  constructor
  · constructor
    · rintro ⟨e, he⟩
      by_cases hnd : (known ++ nodes.map BranchNode.branch_id).Nodup
      · right
        rw [parse_branches_ok_case known nodes _ _ _
          (parseLoop_ok nodes known hnd)] at he
        by_cases hw : PRECISION < |(nodes.map BranchNode.weight).sum - 1|
        · exact Or.inl hw
        · right
          rw [if_neg hw] at he
          by_cases hv : (nodes.filterMap BranchNode.value).Nodup
          · rw [if_neg (by simp [hv.dedup])] at he
            simp at he
          · exact hv
      · exact Or.inl hnd
    · intro hcase
      by_cases hnd : (known ++ nodes.map BranchNode.branch_id).Nodup
      · have heq := parse_branches_ok_case known nodes _ _ _
          (parseLoop_ok nodes known hnd)
        by_cases hw : PRECISION < |(nodes.map BranchNode.weight).sum - 1|
        · exact ⟨.weightSum, by rw [heq, if_pos hw]⟩
        · rcases hcase with h1 | h2 | h3
          · exact absurd hnd h1
          · exact absurd h2 hw
          · exact ⟨.dupValues, by
              rw [heq, if_neg hw, if_pos (dedup_length_lt_iff.2 h3)]⟩
      · obtain ⟨e, he⟩ := (parseLoop_error nodes known hk).2 hnd
        exact ⟨e, parse_branches_error_case known nodes e he⟩
  · have h1 : parseLoop ([] : List String) nodes09 =
        .ok (["x1", "x2"], 9/10, ["m1", "m2"]) := by
      rw [parseLoop_ok nodes09 [] (by decide)]
      norm_num [nodes09, List.filterMap_cons]
    rw [parse_branches_ok_case [] nodes09 _ _ _ h1,
      if_pos (by
        rw [PRECISION, abs_sub_comm,
          abs_of_nonneg (by norm_num : (0:ℚ) ≤ 1 - 9/10)]
        norm_num)]

/-- Witness for c5_parse_branches: on an empty registry, a branchset whose
weights sum to 0.9 fails construction with the weight-sum error. -/
theorem c5_parse_branches_witness :
    ([] : List String).Nodup ∧ parse_branches [] nodes09 = .error .weightSum :=
  ⟨by decide, (c5_parse_branches [] nodes09 (by decide)).2⟩

theorem lookup_map_self (l : List String) (f : String → ℚ) (k : String) :
    (l.map fun a => (a, f a)).lookup k =
      if k ∈ l then some (f k) else none := by
  induction l with
  | nil => simp
  | cons a rest ih =>
      by_cases hak : k = a
      · subst hak
        simp [List.lookup]
      · have hbeq : (k == a) = false := by simpa using hak
        simp only [List.map_cons, List.lookup, hbeq]
        rw [ih]
        simp [hak]

/-- C6 counterexample: two branch weights whose PGA component is 0 sum to a
composite weight whose is_one check passes although the PGA component of the
sum is 0, not within tolerance of 1: the claimed equivalence between is_one
of the sum and every component being within tolerance of 1 is false. -/
theorem c6_is_one_counterexample :
    (sumWeights [imtZeroPGA, imtZeroPGA]).is_one = true ∧
    ("PGA", (0 : ℚ)) ∈ (sumWeights [imtZeroPGA, imtZeroPGA]).dic ∧
    ¬ (∀ kv ∈ (sumWeights [imtZeroPGA, imtZeroPGA]).dic,
        |kv.2 - 1| < PRECISION) := by
  have hsum : sumWeights [imtZeroPGA, imtZeroPGA] =
      ⟨[("weight", 1), ("PGA", 0)]⟩ := by
    simp [sumWeights, ImtWeight.addFloat, ImtWeight.add, ImtWeight.get,
      imtZeroPGA, List.lookup]
    norm_num
  refine ⟨?_, ?_, ?_⟩
  · rw [hsum]
    simp [ImtWeight.is_one, PRECISION]
  · rw [hsum]
    simp
  · rw [hsum]
    intro hall
    have := hall ("PGA", 0) (by simp)
    rw [PRECISION] at this
    norm_num at this

/-- C6 as amended: gsim branchset construction accepts a branchset exactly
when is_one holds of the component-wise sum of its weights, and is_one holds
exactly when every nonzero component is within PRECISION of 1 (components
equal to 0 are skipped by the check). -/
theorem c6_imtweight_sum_validation (ws : List ImtWeight) (x : ImtWeight) :
    (checkBsetWeights ws = .ok () ↔ (sumWeights ws).is_one = true) ∧
    (x.is_one = true ↔
      ∀ kv ∈ x.dic, kv.2 = 0 ∨ |kv.2 - 1| < PRECISION) := by
  constructor
  · unfold checkBsetWeights
    split <;> simp_all
  · simp [ImtWeight.is_one, List.all_eq_true]

/-- C10: ImtWeight addition takes its key set from the left operand only,
with missing keys of the right operand falling back to its default weight
component, so addition is not commutative on differing key sets; while
multiplication builds the union of the key sets and is commutative as a
dictionary. -/
theorem c10_imtweight_add_mul :
    (∀ x y : ImtWeight, (x.add y).dic.map Prod.fst = x.dic.map Prod.fst) ∧
    (∀ x y : ImtWeight, ∀ k : String, ∀ v : ℚ, (k, v) ∈ x.dic →
      (k, v + y.get k) ∈ (x.add y).dic) ∧
    (imtX.add imtY ≠ imtY.add imtX ∧
      (imtX.add imtY).dic.map Prod.fst ≠ (imtY.add imtX).dic.map Prod.fst) ∧
    (∀ x y : ImtWeight, (x.mul y).dic.map Prod.fst =
      ((x.dic.map Prod.fst) ++ (y.dic.map Prod.fst)).dedup) ∧
    (∀ (x y : ImtWeight) (k : String),
      (x.mul y).dic.lookup k = (y.mul x).dic.lookup k) := by
  refine ⟨?_, ?_, ?_, ?_, ?_⟩
  · intro x y
    rw [ImtWeight.add, List.map_map]
    exact List.map_congr_left fun kv _ => rfl
  · intro x y k v hmem
    exact List.mem_map_of_mem _ hmem
  · have hkeys : (imtX.add imtY).dic.map Prod.fst ≠
        (imtY.add imtX).dic.map Prod.fst := by
      simp [ImtWeight.add, imtX, imtY]
    exact ⟨fun h => hkeys (by rw [h]), hkeys⟩
  · intro x y
    rw [ImtWeight.mul, List.map_map]
    exact (List.map_congr_left fun k _ => rfl).trans (List.map_id _)
  · intro x y k
    rw [ImtWeight.mul, ImtWeight.mul]
    simp only [lookup_map_self]
    by_cases hmem : k ∈ (x.dic.map Prod.fst ++ y.dic.map Prod.fst).dedup
    · rw [if_pos hmem,
        if_pos (by
          simp only [List.mem_dedup, List.mem_append] at hmem ⊢
          exact hmem.symm),
        mul_comm]
    · rw [if_neg hmem,
        if_neg (by
          simp only [List.mem_dedup, List.mem_append] at hmem ⊢
          exact fun h => hmem h.symm)]

/-- Witness for c10_imtweight_add_mul: the PGA entry of the left operand
appears in the sum with the fallback default of the right operand added. -/
theorem c10_imtweight_add_mul_witness :
    ("PGA", (3:ℚ)/10) ∈ imtX.dic ∧
    ("PGA", (3:ℚ)/10 + imtY.get "PGA") ∈ (imtX.add imtY).dic := by
  have h : ("PGA", (3:ℚ)/10) ∈ imtX.dic := by simp [imtX]
  exact ⟨h, c10_imtweight_add_mul.2.1 imtX imtY "PGA" (3/10) h⟩

/-- C7 counterexample: incrementalMFDAbsolute and
characteristicFaultGeometryAbsolute are absolute uncertainty kinds (their
values replace data of a target source), yet validate_filters accepts them
with no filters at all, against the claim that construction fails for every
absolute kind without a single-source applyToSources filter. -/
theorem c7_validate_filters_counterexample :
    validate_filters [] [] [] false "incrementalMFDAbsolute" [] =
      Except.ok () ∧
    validate_filters [] [] [] false "characteristicFaultGeometryAbsolute" [] =
      Except.ok () := by
  constructor <;> rfl

/-- C7 as amended: for the four absolute kinds abGRAbsolute, maxMagGRAbsolute,
simpleFaultGeometryAbsolute and complexFaultGeometryAbsolute, validation
fails unless the filters are exactly one applyToSources filter naming exactly
one source id; for the fault-dip kinds, validation fails when neither an
applyToSources nor an applyToSourceType filter is present. -/
theorem c7_validate_filters (trts stypes : List String)
    (sids : List (List String)) (hatb : Bool) (u : String)
    (filters : List (String × String)) :
    (u ∈ ["abGRAbsolute", "maxMagGRAbsolute", "simpleFaultGeometryAbsolute",
        "complexFaultGeometryAbsolute"] →
      ¬ (filters.map Prod.fst = ["applyToSources"] ∧
          (pySplit ((filters.lookup "applyToSources").getD "")).length = 1) →
      ∃ e, validate_filters trts stypes sids hatb u filters = .error e) ∧
    (u ∈ ["simpleFaultDipRelative", "simpleFaultDipAbsolute"] →
      filters.lookup "applyToSources" = none →
      filters.lookup "applyToSourceType" = none →
      ∃ e, validate_filters trts stypes sids hatb u filters = .error e) := by
  constructor
  · intro hu hnot
    unfold validate_filters
    split
    · exact ⟨_, rfl⟩
    split
    · exact ⟨_, rfl⟩
    split
    · exact ⟨_, rfl⟩
    split
    · exact ⟨_, rfl⟩
    rename_i h1 h2 h3 h4
    exfalso
    apply h4
    refine ⟨hu, ?_⟩
    by_cases hkeys : filters.map Prod.fst = ["applyToSources"]
    · right; right
      intro hlen
      exact hnot ⟨hkeys, hlen⟩
    · right; left
      exact hkeys
  · intro hu hs ht
    unfold validate_filters
    split
    · exact ⟨_, rfl⟩
    split
    · exact ⟨_, rfl⟩
    split
    · exact ⟨_, rfl⟩
    split
    · exact ⟨_, rfl⟩
    split
    · exact ⟨_, rfl⟩
    rename_i h1 h2 h3 h4 h5
    exfalso
    apply h5
    exact ⟨hu, Or.inr ⟨hs, ht⟩⟩

/-- Witness for c7_validate_filters: abGRAbsolute with no filters and
simpleFaultDipRelative with no filters both fail validation. -/
theorem c7_validate_filters_witness :
    (∃ e, validate_filters [] [] [] false "abGRAbsolute" [] = .error e) ∧
    (∃ e, validate_filters [] [] [] false "simpleFaultDipRelative" [] =
      .error e) := by
  constructor
  · exact (c7_validate_filters [] [] [] false "abGRAbsolute" []).1
      (by decide) (by decide)
  · exact (c7_validate_filters [] [] [] false "simpleFaultDipRelative" []).2
      (by decide) rfl rfl

theorem foldl_skip_zero (l : List (String × ℕ)) :
    ∀ a : ℕ, l.foldl (fun acc kv => if kv.2 ≠ 0 then acc * kv.2 else acc) a =
      a * ((l.map Prod.snd).filter (· ≠ 0)).prod := by
  induction l with
  | nil => intro a; simp
  | cons kv rest ih =>
      intro a
      by_cases h : kv.2 ≠ 0
      · simp only [List.foldl_cons, if_pos h, List.map_cons, List.filter_cons]
        rw [ih]
        simp [h, mul_assoc]
      · simp only [List.foldl_cons, if_neg h, List.map_cons, List.filter_cons]
        rw [ih]
        simp [h]

/-- C8 counterexample: on a tree with a non-effective group (count 0) and a
group of two effective branches, get_num_paths returns 2, while the product
over tectonic region types of the effective branch counts is 0: the claimed
formula fails because the code skips zero counts. -/
theorem c8_get_num_paths_counterexample :
    mixedEffective.get_num_paths = 2 ∧
    ((mixedEffective.get_num_branches).map Prod.snd).prod = 0 ∧
    (2 : ℕ) ≠ 0 := by
  refine ⟨rfl, rfl, by decide⟩

/-- C8 as amended: get_num_paths is 0 exactly when no group has an effective
branch, and otherwise it is the product of the effective branch counts over
the groups with at least one effective branch (groups with none are
skipped); on Scenario C it is 4. -/
theorem c8_get_num_paths (t : GsimLogicTree) :
    (t.get_num_paths = 0 ↔ ((t.get_num_branches).map Prod.snd).sum = 0) ∧
    (((t.get_num_branches).map Prod.snd).sum ≠ 0 →
      t.get_num_paths =
        (((t.get_num_branches).map Prod.snd).filter (· ≠ 0)).prod) ∧
    scenarioC.get_num_paths = 4 := by
  have hmain : ((t.get_num_branches).map Prod.snd).sum ≠ 0 →
      t.get_num_paths =
        (((t.get_num_branches).map Prod.snd).filter (· ≠ 0)).prod := by
    intro hs
    unfold GsimLogicTree.get_num_paths
    rw [if_neg hs, foldl_skip_zero, one_mul]
  refine ⟨?_, hmain, rfl⟩
  constructor
  · intro h0
    by_contra hs
    rw [hmain hs] at h0
    have : ∀ x ∈ ((t.get_num_branches).map Prod.snd).filter (· ≠ 0), x ≠ 0 :=
      fun x hx => by simpa using List.of_mem_filter hx
    exact List.prod_ne_zero (by simpa using this) h0
  · intro hs
    unfold GsimLogicTree.get_num_paths
    rw [if_pos hs]

/-- Witness for c8_get_num_paths: Scenario C has effective branches and its
path count is the product of the nonzero group counts. -/
theorem c8_get_num_paths_witness :
    ((scenarioC.get_num_branches).map Prod.snd).sum ≠ 0 ∧
    scenarioC.get_num_paths =
      (((scenarioC.get_num_branches).map Prod.snd).filter (· ≠ 0)).prod := by
  exact ⟨by decide, (c8_get_num_paths scenarioC).2.1 (by decide)⟩

theorem chunkBy_spec {α : Type} (key : α → String) :
    ∀ l : List α, ∀ g ∈ chunkBy key l,
      ∃ g0 rest, g = g0 :: rest ∧ ∀ x ∈ g, key x = key g0 := by
  intro l
  induction l with
  | nil => simp [chunkBy]
  | cons a tl ih =>
      intro g hg
      have hg2 : g ∈ (match chunkBy key tl with
          | [] => [[a]]
          | [] :: gs => [a] :: gs
          | (b :: g1) :: gs =>
              if key a = key b then (a :: b :: g1) :: gs
              else [a] :: (b :: g1) :: gs) := hg
      cases hres : chunkBy key tl with
      | nil =>
          rw [hres] at hg2
          simp at hg2
          subst hg2
          exact ⟨a, [], rfl, by simp⟩
      | cons g1 gs =>
          rw [hres] at hg2
          cases g1 with
          | nil =>
              simp at hg2
              rcases hg2 with hga | hgm
              · subst hga
                exact ⟨a, [], rfl, by simp⟩
              · exact ih g (by rw [hres]; exact List.mem_cons_of_mem _ hgm)
          | cons b g1t =>
              have hg3 : g ∈ (if key a = key b then (a :: b :: g1t) :: gs
                  else [a] :: (b :: g1t) :: gs) := hg2
              by_cases hk : key a = key b
              · rw [if_pos hk] at hg3
                simp at hg3
                rcases hg3 with hga | hgm
                · subst hga
                  refine ⟨a, b :: g1t, rfl, ?_⟩
                  intro x hx
                  rcases List.mem_cons.1 hx with hxa | hxbg
                  · rw [hxa]
                  · obtain ⟨h0, hrest, hcons, hall⟩ :=
                      ih (b :: g1t) (by rw [hres]; exact List.mem_cons_self _ _)
                    have hb0 : h0 = b := by
                      injection hcons with h1 h2
                      exact h1.symm
                    have := hall x hxbg
                    rw [this, hb0, ← hk]
                · exact ih g (by rw [hres]; exact List.mem_cons_of_mem _ hgm)
              · rw [if_neg hk] at hg3
                simp at hg3
                rcases hg3 with hga | hgm
                · subst hga
                  exact ⟨a, [], rfl, by simp⟩
                · exact ih g (by rw [hres]; exact List.mem_cons.2 hgm)

theorem collapseGroup_trt (bsMap : List (String × String)) (ids : List String)
    (l : List BranchTuple) :
    ∀ c ∈ chunkBy BranchTuple.trt l,
      ∀ b ∈ collapseGroup bsMap ids c, b.trt = headTrt c := by
  intro c hc b hb
  obtain ⟨g0, rest, hge, hall⟩ := chunkBy_spec BranchTuple.trt l c hc
  subst hge
  simp only [collapseGroup] at hb
  by_cases hcond : 1 < ((g0 :: rest).map BranchTuple.gsim).length ∧
      ((bsMap.lookup g0.trt).getD "") ∈ ids
  · rw [if_pos hcond] at hb
    simp at hb
    rw [hb]
    rfl
  · rw [if_neg hcond] at hb
    simp at hb
    rw [hb, ← List.getLastD_eq_getLast?]
    exact hall _ (List.getLastD_mem_cons rest g0)

theorem filter_isolate (K : String) (f : List BranchTuple → List BranchTuple) :
    ∀ chunks : List (List BranchTuple),
      (chunks.map headTrt).Nodup →
      (∀ c ∈ chunks, ∀ b ∈ f c, b.trt = headTrt c) →
      ∀ g ∈ chunks, headTrt g = K →
        ((chunks.map f).flatten.filter fun b => b.trt == K) =
          (f g).filter fun b => b.trt == K := by
  intro chunks
  induction chunks with
  | nil => intro _ _ g hg; simp at hg
  | cons c cs ih =>
      intro hnd htrt g hg hK
      simp only [List.map_cons, List.nodup_cons] at hnd
      simp only [List.map_cons, List.flatten_cons, List.filter_append]
      rcases List.mem_cons.1 hg with hgc | hgcs
      · subst hgc
        have hrest : ((cs.map f).flatten.filter fun b => b.trt == K) = [] := by
          rw [List.filter_eq_nil_iff]
          intro b hb
          obtain ⟨o, ho, hbo⟩ := List.mem_flatten.1 hb
          obtain ⟨c2, hc2, rfl⟩ := List.mem_map.1 ho
          have hb2 := htrt c2 (List.mem_cons_of_mem _ hc2) b hbo
          have hne : headTrt c2 ≠ K := by
            intro heq
            have hmm := List.mem_map_of_mem headTrt hc2
            rw [heq, ← hK] at hmm
            exact hnd.1 hmm
          simp [hb2, hne]
        rw [hrest, List.append_nil]
      · have hne : headTrt c ≠ K := by
          intro heq
          have hmm := List.mem_map_of_mem headTrt hgcs
          rw [hK, ← heq] at hmm
          exact hnd.1 hmm
        have hc0 : ((f c).filter fun b => b.trt == K) = [] := by
          rw [List.filter_eq_nil_iff]
          intro b hb
          have := htrt c (List.mem_cons_self _ _) b hb
          simp [this, hne]
        rw [hc0, List.nil_append]
        exact ih hnd.2
          (fun c2 hc2 => htrt c2 (List.mem_cons_of_mem _ hc2)) g hgcs hK

/-- C2 counterexample: on Scenario C, collapsing only the Active branchset
leaves Stable with a single branch, its last one, instead of passing its two
branches through unchanged. -/
theorem c2_collapse_counterexample :
    ((scenarioC.collapse ["bsA"]).branches.filter
        fun b => b.trt == "Stable") =
      [⟨"Stable", "bS2", .base "GS2", wHalf, true⟩] ∧
    (scenarioC.branches.filter fun b => b.trt == "Stable") =
      [⟨"Stable", "bS1", .base "GS1", wHalf, true⟩,
       ⟨"Stable", "bS2", .base "GS2", wHalf, true⟩] ∧
    ([(⟨"Stable", "bS2", .base "GS2", wHalf, true⟩ : BranchTuple)] ≠
      [⟨"Stable", "bS1", .base "GS1", wHalf, true⟩,
       ⟨"Stable", "bS2", .base "GS2", wHalf, true⟩]) := by
  refine ⟨rfl, rfl, by simp⟩

/-- C2 as amended: collapse replaces each selected group with more than one
branch by the single synthetic model-averaging branch wrapping the models of
the group with their weights, but every other group is reduced to its last
branch only (hence a single-branch group passes through unchanged, while an
unselected multi-branch group loses all branches but the last). -/
theorem c2_collapse (t : GsimLogicTree) (ids : List String)
    (hnd : ((chunkBy BranchTuple.trt t.branches).map headTrt).Nodup) :
    ∀ g ∈ chunkBy BranchTuple.trt t.branches, ∀ g0 rest, g = g0 :: rest →
      ((t.collapse ids).branches.filter fun b => b.trt == g0.trt) =
        (if 1 < g.length ∧ ((t.bs_id_by_trt.lookup g0.trt).getD "") ∈ ids
         then [avgBranchOf ((t.bs_id_by_trt.lookup g0.trt).getD "") g]
         else [rest.getLastD g0]) := by
  intro g hg g0 rest hge
  have h1 : (t.collapse ids).branches =
      ((chunkBy BranchTuple.trt t.branches).map
        (collapseGroup t.bs_id_by_trt ids)).flatten := rfl
  have hK : headTrt g = g0.trt := by rw [hge]; rfl
  rw [h1, filter_isolate g0.trt _ _ hnd
    (collapseGroup_trt t.bs_id_by_trt ids t.branches) g hg hK]
  have hself : ((collapseGroup t.bs_id_by_trt ids g).filter
      fun b => b.trt == g0.trt) = collapseGroup t.bs_id_by_trt ids g := by
    rw [List.filter_eq_self]
    intro b hb
    have := collapseGroup_trt t.bs_id_by_trt ids t.branches g hg b hb
    rw [hK] at this
    simp [this]
  rw [hself]
  subst hge
  simp only [collapseGroup, avgBranchOf, headTrt, List.length_map]

/-- Witness for c2_collapse: on Scenario C the Active group satisfies the
hypotheses and collapses to the synthetic averaging branch. -/
theorem c2_collapse_witness :
    ((chunkBy BranchTuple.trt scenarioC.branches).map headTrt).Nodup ∧
    ([(⟨"Active", "bA1", .base "GA1", wHalf, true⟩ : BranchTuple),
      ⟨"Active", "bA2", .base "GA2", wHalf, true⟩] : List BranchTuple) ∈
      chunkBy BranchTuple.trt scenarioC.branches ∧
    ((scenarioC.collapse ["bsA"]).branches.filter
        fun b => b.trt == "Active") =
      [avgBranchOf "bsA"
        [⟨"Active", "bA1", .base "GA1", wHalf, true⟩,
         ⟨"Active", "bA2", .base "GA2", wHalf, true⟩]] := by
  have hch : chunkBy BranchTuple.trt scenarioC.branches =
      [[⟨"Active", "bA1", .base "GA1", wHalf, true⟩,
        ⟨"Active", "bA2", .base "GA2", wHalf, true⟩],
       [⟨"Stable", "bS1", .base "GS1", wHalf, true⟩,
        ⟨"Stable", "bS2", .base "GS2", wHalf, true⟩]] := rfl
  have hnd : ((chunkBy BranchTuple.trt scenarioC.branches).map headTrt).Nodup := by
    rw [hch]
    simp [headTrt]
  have hmem : ([(⟨"Active", "bA1", .base "GA1", wHalf, true⟩ : BranchTuple),
      ⟨"Active", "bA2", .base "GA2", wHalf, true⟩] : List BranchTuple) ∈
      chunkBy BranchTuple.trt scenarioC.branches := by
    rw [hch]
    exact List.mem_cons_self _ _
  refine ⟨hnd, hmem, ?_⟩
  have h := c2_collapse scenarioC ["bsA"] hnd _ hmem
    ⟨"Active", "bA1", .base "GA1", wHalf, true⟩
    [⟨"Active", "bA2", .base "GA2", wHalf, true⟩] rfl
  rw [h]
  rfl

/-- C3: the toh5/fromh5 round trip does not preserve enumeration on a chain
of three branchsets: __fromh5__ links the parent branches to the stale loop
variable bset -- the last branchset -- instead of childset, so the root
branches of the reconstructed tree point at the third level and the middle
branchset is dropped; the original tree enumerates the path c1-c2-c3 while
the reconstruction enumerates c1-c3. -/
theorem c3_roundtrip_three_levels :
    enumRealizations (fromh5 (toh5 chainBranches chainBsetdict) chainBsetdict)
      = [⟨"sm", 1, some 0, ["c1", "c3"], 1⟩] ∧
    enumRealizations chainRoot = [⟨"sm", 1, some 0, ["c1", "c2", "c3"], 1⟩] ∧
    enumRealizations (fromh5 (toh5 chainBranches chainBsetdict) chainBsetdict)
      ≠ enumRealizations chainRoot := by
  have hrecon : fromh5 (toh5 chainBranches chainBsetdict) chainBsetdict =
      BranchSet.mk "sourceModel"
        [Branch.mk "bs1" "c1" 1 "sm"
          (some (BranchSet.mk "bGRRelative"
            [Branch.mk "bs3" "c3" 1 "0.1" none]))] := rfl
  have h1 : enumRealizations
      (fromh5 (toh5 chainBranches chainBsetdict) chainBsetdict) =
      [⟨"sm", 1, some 0, ["c1", "c3"], 1⟩] := by
    rw [hrecon]
    simp [enumRealizations, SourceModelLogicTree.iter, BranchSet.enumerate_paths,
      BranchSet.branches, enumPathsList, enumPathsBranch, pathWeight, pathFlat,
      headValue, Branch.branch_id, Branch.value, Branch.weight, List.enum]
  have h2 : enumRealizations chainRoot =
      [⟨"sm", 1, some 0, ["c1", "c2", "c3"], 1⟩] := by
    simp [enumRealizations, SourceModelLogicTree.iter, chainRoot, chainBS2,
      chainBS3, BranchSet.enumerate_paths, BranchSet.branches, enumPathsList,
      enumPathsBranch, pathWeight, pathFlat, headValue, Branch.branch_id,
      Branch.value, Branch.weight, List.enum]
  refine ⟨h1, h2, ?_⟩
  rw [h1, h2]
  simp

/-- Witness for c6_imtweight_sum_validation: a branchset of two weights 0.5
passes the construction-time weight check. -/
theorem c6_imtweight_sum_validation_witness :
    checkBsetWeights [wHalf, wHalf] = .ok () := by
  apply (c6_imtweight_sum_validation [wHalf, wHalf] wHalf).1.2
  simp [sumWeights, ImtWeight.addFloat, ImtWeight.add, ImtWeight.get, wHalf,
    ImtWeight.is_one, PRECISION, List.lookup]
  norm_num
